import Mathlib

/-!
Verification of the gitignore-style exclusion engine of the `toprompt`
command-line utility.  The repository contains two variants of the program,
`main.rs` (namespace `MainRs` below) and `main2.rs` (namespace `Main2`).
Strings are modelled as lists of characters and filesystem paths as lists of
path components.
-/

/-- A string, modelled as its list of characters. -/
abbrev Str := List Char

/-- Model of Rust's `str::split(c)`: splits a character list at every
occurrence of `c`; the result always has at least one (possibly empty)
piece. -/
def splitOnChar (c : Char) : Str → List Str
  | [] => [[]]
  | a :: rest =>
    let r := splitOnChar c rest
    if a = c then [] :: r
    else
      match r with
      | [] => [[a]]
      | h :: t => (a :: h) :: t

/-- Model of Rust's `str::trim`. -/
def trimStr (s : Str) : Str :=
  ((s.dropWhile Char.isWhitespace).reverse.dropWhile Char.isWhitespace).reverse

/-- Rendering of a component path, as `Path::to_string_lossy` produces on the
relative paths the program builds: components joined by `/`. -/
def renderPath (p : List Str) : Str :=
  List.intercalate ['/'] p

/-- Model of Rust's `Path::file_name` on a slash-separated relative path
without dot components: the last non-empty component, if any. -/
def fileName (s : Str) : Option Str :=
  ((splitOnChar '/' s).filter (fun c => !c.isEmpty)).getLast?

/-- Boolean lexicographic order on strings (byte order for the names the
walker sorts); models the ordering used by `sort_by_key(|e| e.path())`. -/
def lexLe : Str → Str → Bool
  | [], _ => true
  | _ :: _, [] => false
  | a :: s, b :: t => if a = b then lexLe s t else decide (a < b)

namespace Main2

/-- Model of `GitIgnorePattern::simple_glob_match` from `main2.rs`: the
character-by-character matcher in which `*` retries the remaining pattern
against every suffix of the text (including the whole text and the empty
suffix) and `?` consumes exactly one character.  Structural recursion on the
pattern. -/
def simple_glob_match : Str → Str → Bool
  | [], text => text.isEmpty
  | p :: ps, text =>
    if p = '*' then
      if ps.isEmpty then true
      else text.tails.any (fun s => simple_glob_match ps s)
    else if p = '?' then
      match text with
      | [] => false
      | _ :: ts => simple_glob_match ps ts
    else
      match text with
      | [] => (p :: ps).all (fun c => c = '*')
      | t :: ts => if p = t then simple_glob_match ps ts else false

/-- One round of the suffix-retry loop of the `*` handler, with the recursive
matcher passed in: used by the fuel-indexed matcher below. -/
def starLoop (f : Str → Option Bool) : List Str → Option Bool
  | [] => some false
  | s :: rest =>
    match f s with
    | none => none
    | some true => some true
    | some false => starLoop f rest

/-- Fuel-indexed version of `simple_glob_match`, mirroring the recursion of
the Rust source: every recursive call of the source consumes one unit of
fuel, and `none` means the recursion budget ran out before a base case was
reached. -/
def globFuel : Nat → Str → Str → Option Bool
  | 0, _, _ => none
  | n + 1, pat, text =>
    match pat with
    | [] => some text.isEmpty
    | p :: ps =>
      if p = '*' then
        if ps.isEmpty then some true
        else starLoop (fun s => globFuel n ps s) text.tails
      else if p = '?' then
        match text with
        | [] => some false
        | _ :: ts => globFuel n ps ts
      else
        match text with
        | [] => some ((p :: ps).all (fun c => c = '*'))
        | t :: ts => if p = t then globFuel n ps ts else some false

/-- Model of the `GitIgnorePattern` struct of `main2.rs`. -/
structure GitIgnorePattern where
  pattern : Str
  is_negation : Bool
  is_directory : Bool
  is_absolute : Bool
deriving DecidableEq

/-- Model of `GitIgnorePattern::new` from `main2.rs`: trims the line and
strips the `!`, leading `/` and trailing `/` markers, recording each as a
flag.  Unlike the first variant there is no inert case for blank or comment
lines. -/
def GitIgnorePattern.new (line : Str) : GitIgnorePattern :=
  let p0 := trimStr line
  let is_negation := decide (p0.head? = some '!')
  let p1 := if is_negation then p0.tail else p0
  let is_absolute := decide (p1.head? = some '/')
  let p2 := if is_absolute then p1.tail else p1
  let is_directory := decide (p2.getLast? = some '/')
  let p3 := if is_directory then p2.dropLast else p2
  { pattern := p3, is_negation := is_negation
    is_directory := is_directory, is_absolute := is_absolute }

/-- Model of `GitIgnorePattern::matches` from `main2.rs`: anchored patterns
glob-match the whole path; patterns with an internal slash glob-match the
whole path (the `ends_with` retry recomputes the same glob match); slash-free
patterns match the final component, any component of a directory candidate,
and through the final fallback any component of any candidate. -/
def GitIgnorePattern.matches (self : GitIgnorePattern) (s : Str)
    (entryIsDir : Bool) : Bool :=
  if self.is_directory && !entryIsDir then false
  else if self.is_absolute then simple_glob_match self.pattern s
  else if self.pattern.contains '/' then
    if simple_glob_match self.pattern s then true
    else if self.pattern.isSuffixOf s then simple_glob_match self.pattern s
    else false
  else
    if simple_glob_match self.pattern ((fileName s).getD []) then true
    else if entryIsDir &&
        (splitOnChar '/' s).any (fun part => simple_glob_match self.pattern part) then true
    else (splitOnChar '/' s).any (fun part => simple_glob_match self.pattern part)

/-- Model of the `GitIgnore` struct of `main2.rs`. -/
structure GitIgnore where
  patterns : List GitIgnorePattern
deriving DecidableEq

/-- Model of `GitIgnore::should_ignore` from `main2.rs`: renders the path,
then iterates the rules in declaration order, each matching rule overwriting
the running ignored-state with the negation of its negation flag. -/
def GitIgnore.should_ignore (self : GitIgnore) (rel : List Str) (isDir : Bool) : Bool :=
  self.patterns.foldl
    (fun ignored rule =>
      if rule.matches (renderPath rel) isDir then !rule.is_negation else ignored)
    false

end Main2

namespace MainRs

/-- Model of Rust's `str::find(&str)` restricted to the substring search the
matcher performs: the index of the first occurrence of `needle` in the
haystack, if any. -/
def findSub (needle : Str) : Str → Option Nat
  | [] => if needle = [] then some 0 else none
  | h :: t =>
    if needle.isPrefixOf (h :: t) then some 0
    else (findSub needle t).map (· + 1)

/-- The part-by-part loop of `GitIgnorePattern::simple_glob_match` from
`main.rs`, over the pieces obtained by splitting the pattern at `*`.  The
result is `Sum.inl b` for an early `return b` and `Sum.inr text_idx` when the
loop runs to completion. -/
def globLoop (text : Str) (startsStar : Bool) (partsLen : Nat) :
    List Str → Nat → Nat → Sum Bool Nat
  | [], _, tidx => Sum.inr tidx
  | part :: rest, i, tidx =>
    if part = [] then
      if i = 0 ∧ partsLen = 1 then Sum.inl (!(text.contains '/'))
      else globLoop text startsStar partsLen rest (i + 1) tidx
    else if i = 0 ∧ startsStar = false then
      if part.isPrefixOf text then globLoop text startsStar partsLen rest (i + 1) part.length
      else Sum.inl false
    else
      match findSub part (text.drop tidx) with
      | some pos => globLoop text startsStar partsLen rest (i + 1) (tidx + pos + part.length)
      | none => Sum.inl false

/-- Model of `GitIgnorePattern::simple_glob_match` from `main.rs`: substring
matching of the pieces of the pattern split at `*`.  Only `*` is treated as a
wildcard; any `?` in the pattern is carried along inside a literal piece. -/
def simple_glob_match (pattern text : Str) : Bool :=
  if pattern = ['*'] then !(text.contains '/')
  else if pattern = [] then text.isEmpty
  else if text = [] then decide (pattern = ['*'] ∨ pattern = [])
  else if pattern.contains '*' = false ∧ pattern.contains '?' = false then
    decide (pattern = text)
  else
    let parts := splitOnChar '*' pattern
    if parts = [] then true
    else
      match globLoop text (decide (pattern.head? = some '*')) parts.length parts 0 0 with
      | Sum.inl b => b
      | Sum.inr tidx =>
        if pattern.getLast? = some '*' then true
        else decide (tidx = text.length)

/-- Model of the `GitIgnorePattern` struct of `main.rs`. -/
structure GitIgnorePattern where
  pattern : Str
  raw_pattern : Str
  is_negation : Bool
  is_directory : Bool
  is_absolute : Bool
  contains_slash : Bool
  defined_in_dir : List Str
deriving DecidableEq

/-- Model of `GitIgnorePattern::new` from `main.rs`: trims the raw line,
returns an inert pattern for blank and comment lines, and otherwise strips a
leading `!` (negation), a leading `/` (anchoring) and a trailing `/`
(directory-only), recording each as a flag. -/
def GitIgnorePattern.new (raw : Str) (definedIn : List Str) : GitIgnorePattern :=
  let p0 := trimStr raw
  if p0 = [] ∨ p0.head? = some '#' then
    { pattern := [], raw_pattern := [], is_negation := false, is_directory := false
      is_absolute := false, contains_slash := false, defined_in_dir := definedIn }
  else
    let is_negation := decide (p0.head? = some '!')
    let p1 := if is_negation then p0.tail else p0
    let is_absolute := decide (p1.head? = some '/')
    let p2 := if is_absolute then p1.tail else p1
    let is_directory := decide (p2.getLast? = some '/')
    let p3 := if is_directory then p2.dropLast else p2
    { pattern := p3, raw_pattern := raw, is_negation := is_negation
      is_directory := is_directory, is_absolute := is_absolute
      contains_slash := !is_absolute && p3.contains '/', defined_in_dir := definedIn }

/-- Model of `GitIgnorePattern::matches` from `main.rs`. -/
def GitIgnorePattern.matches (self : GitIgnorePattern) (s : Str) (isDir : Bool) : Bool :=
  if self.pattern = [] then false
  else if self.is_directory && !isDir then false
  else if self.is_absolute || self.contains_slash then
    simple_glob_match self.pattern s
  else
    (match fileName s with
     | some fn => simple_glob_match self.pattern fn
     | none => false) ||
    simple_glob_match self.pattern s

/-- Model of `GitIgnorePattern::matches_against_any_component` from
`main.rs`. -/
def GitIgnorePattern.matches_against_any_component
    (self : GitIgnorePattern) (s : Str) (isDir : Bool) : Bool :=
  if self.pattern = [] then false
  else if self.is_directory && !isDir then false
  else if (match fileName s with
           | some fn => simple_glob_match self.pattern fn
           | none => false) then true
  else if !(s.contains '/') && simple_glob_match self.pattern s then true
  else false

/-- Model of the `GitIgnore` struct of `main.rs`. -/
structure GitIgnore where
  patterns : List GitIgnorePattern
  effective_base_dir : List Str
deriving DecidableEq

/-- Model of `GitIgnore::empty`. -/
def GitIgnore.empty : GitIgnore := { patterns := [], effective_base_dir := [] }

/-- Model of `GitIgnore::with_defaults`: the two always-on rules `.git/` and
`.gitignore`, anchored at the operation's base directory. -/
def GitIgnore.with_defaults (base : List Str) : GitIgnore :=
  { patterns := [GitIgnorePattern.new ".git/".toList base,
                 GitIgnorePattern.new ".gitignore".toList base]
    effective_base_dir := base }

/-- Model of `GitIgnore::merge`: appends the other set's patterns. -/
def GitIgnore.merge (self other : GitIgnore) : GitIgnore :=
  { patterns := self.patterns ++ other.patterns
    effective_base_dir := self.effective_base_dir }

/-- The body of the rule loop of `GitIgnore::should_ignore` from `main.rs`:
whether one rule applies to the candidate and therefore overwrites the
running ignored-state.  A rule applies through `matches` when the candidate's
absolute path lies under the rule's defining directory, and through
`matches_against_any_component` otherwise, but then only for unanchored
slash-free rules. -/
def ruleFires (rule : GitIgnorePattern) (rel : List Str) (isDir : Bool)
    (base : List Str) : Bool :=
  let abs := base ++ rel
  if rule.defined_in_dir.isPrefixOf abs then
    rule.matches (renderPath (abs.drop rule.defined_in_dir.length)) isDir
  else if !rule.is_absolute && !rule.contains_slash then
    rule.matches_against_any_component (renderPath rel) isDir
  else false

/-- Model of `GitIgnore::should_ignore` from `main.rs`: iterates the rules in
declaration order, each applicable matching rule overwriting the running
state with the negation of its negation flag. -/
def GitIgnore.should_ignore (self : GitIgnore) (rel : List Str) (isDir : Bool)
    (base : List Str) : Bool :=
  self.patterns.foldl
    (fun ignored rule => if ruleFires rule rel isDir base then !rule.is_negation else ignored)
    false

/-- Model of `load_gitignore` from `main.rs`, with the text of the ignore
file presented as its list of lines: blank and `#`-prefixed lines are
discarded, every other line becomes a pattern scoped to the containing
directory. -/
def load_gitignore (contents : List Str) (dir : List Str) : GitIgnore :=
  { patterns := contents.filterMap (fun line =>
      let t := trimStr line
      if t = [] ∨ t.head? = some '#' then none
      else some (GitIgnorePattern.new t dir))
    effective_base_dir := dir }

/-- The traversal-relevant part of the `Config` struct of `main.rs`: the
`-i`, `-v`, `-r` flags and the optional compiled `-R` regex, the latter
modelled as an opaque predicate on the rendered relative path. -/
structure Config where
  use_gitignore : Bool
  verbose : Bool
  recursive : Bool
  rx : Option (Str → Bool)

/-- A filesystem tree: a file carries whether reading it succeeds and its
text as a list of lines; a directory carries its named entries in the order
the filesystem happens to enumerate them. -/
inductive FSTree where
  | file (readable : Bool) (lines : List Str)
  | dir (entries : List (Str × FSTree))

/-- Whether a tree node is a directory, as `Path::is_dir` reports. -/
def FSTree.isDir : FSTree → Bool
  | FSTree.dir _ => true
  | FSTree.file _ _ => false

/-- The reserved name of ignore files. -/
def gitignoreName : Str := ".gitignore".toList

/-- Looks up the `.gitignore` entry of a directory, as the filesystem would
resolve `dir.join(".gitignore")`. -/
def findGitignore (es : List (Str × FSTree)) : Option FSTree :=
  (es.find? (fun e => decide (e.1 = gitignoreName))).map (fun e => e.2)

/-- Model of `dir.join(".gitignore").exists()`. -/
def hasGitignore (es : List (Str × FSTree)) : Bool :=
  (findGitignore es).isSome

/-- Model of `load_gitignore` applied to a directory of the modelled
filesystem: a missing or unreadable ignore file (or one that is itself a
directory) contributes no patterns. -/
def loadEntries (es : List (Str × FSTree)) (dir : List Str) : GitIgnore :=
  match findGitignore es with
  | some (FSTree.file true lines) => load_gitignore lines dir
  | some _ => { patterns := [], effective_base_dir := dir }
  | none => { patterns := [], effective_base_dir := dir }

/-- The entry ordering used by `entries.sort_by_key(|e| e.path())`: within
one directory this is byte-lexicographic order of the entry names. -/
def entryLe (a b : Str × FSTree) : Prop := lexLe a.1 b.1 = true

instance : DecidableRel entryLe :=
  fun a b => inferInstanceAs (Decidable (lexLe a.1 b.1 = true))

/-- The sorting step of `process_directory` (`main.rs` lines 285-288). -/
def sortEntries (es : List (Str × FSTree)) : List (Str × FSTree) :=
  es.insertionSort entryLe

/-- The per-entry filter of `process_directory`: without gitignore mode every
entry survives, otherwise an entry survives when the merged set does not
ignore its path relative to the command-argument base directory. -/
def keepEntry (cfg : Config) (gi : GitIgnore) (base rel : List Str)
    (e : Str × FSTree) : Bool :=
  if cfg.use_gitignore then !(gi.should_ignore (rel ++ [e.1]) e.2.isDir base)
  else true

/-- The regex gate applied to a candidate file's rendered relative path. -/
def rxOk (cfg : Config) (rel : List Str) : Bool :=
  match cfg.rx with
  | none => true
  | some f => f (renderPath rel)

/-- The body of the entry loop of `process_directory`: a surviving file is
yielded when the regex admits it and reading succeeds (a failing read is
logged and skipped); a surviving directory is recursed into exactly in
recursive mode, through the `walk` continuation. -/
def walkStep (cfg : Config)
    (walk : GitIgnore → List Str → FSTree → List (List Str) × List Nat)
    (current : GitIgnore) (rel : List Str)
    (e : Str × FSTree) (acc : List (List Str) × List Nat) :
    List (List Str) × List Nat :=
  match e.2 with
  | FSTree.file readable _ =>
    if readable && rxOk cfg (rel ++ [e.1]) then ((rel ++ [e.1]) :: acc.1, acc.2)
    else acc
  | FSTree.dir _ =>
    if cfg.recursive then
      let sub := walk current (rel ++ [e.1]) e.2
      (sub.1 ++ acc.1, sub.2 ++ acc.2)
    else acc

/-- The merged pattern set in effect inside one directory: the inherited set,
extended with the directory's own ignore file when gitignore mode is on and
the file exists (`main.rs` lines 276-283). -/
def currentSet (cfg : Config) (gi : GitIgnore) (base rel : List Str)
    (es : List (Str × FSTree)) : GitIgnore :=
  if cfg.use_gitignore && hasGitignore es
  then gi.merge (loadEntries es (base ++ rel)) else gi

/-- The surviving entries of one directory level, in processing order: the
sorted entries that pass the ignore filter against the merged set. -/
def filteredEntries (cfg : Config) (gi : GitIgnore) (base rel : List Str)
    (es : List (Str × FSTree)) : List (Str × FSTree) :=
  (sortEntries es).filter (keepEntry cfg (currentSet cfg gi base rel es) base rel)

/-- The survivor count that the over-10-items confirmation compares against
the threshold. -/
def survivors (cfg : Config) (gi : GitIgnore) (base rel : List Str)
    (es : List (Str × FSTree)) : Nat :=
  (filteredEntries cfg gi base rel es).length

/-- The entry loop of `process_directory`: folds `walkStep` over the
surviving entries of one directory level, with the recursive walk passed in
as `w`. -/
def walkLevel (cfg : Config) (base : List Str)
    (w : GitIgnore → List Str → FSTree → List (List Str) × List Nat)
    (gi : GitIgnore) (rel : List Str) (es : List (Str × FSTree)) :
    List (List Str) × List Nat :=
  (filteredEntries cfg gi base rel es).foldr
    (walkStep cfg w (currentSet cfg gi base rel es) rel) ([], [])

/-- Model of `process_directory` from `main.rs`, fuel-indexed (the fuel only
needs to exceed the tree depth; an exhausted budget contributes nothing).
Returns the yielded relative file paths in order, together with the list of
survivor counts at which the interactive confirmation was invoked.  Steps:
refuse an inherited-ignored directory outright; merge the local ignore file;
sort; filter; possibly confirm at the top level (only in verbose mode, per
`main.rs` line 307); then yield files and recurse into directories. -/
def walkTreeF (cfg : Config) (base : List Str) (confirm : Nat → Bool) :
    Nat → GitIgnore → List Str → FSTree → List (List Str) × List Nat
  | 0, _, _, _ => ([], [])
  | fuel + 1, gi, rel, t =>
    match t with
    | FSTree.file _ _ => ([], [])
    | FSTree.dir es =>
      if cfg.use_gitignore && gi.should_ignore rel true base then ([], [])
      else
        if survivors cfg gi base rel es > 10 ∧ rel = [] then
          if cfg.verbose then
            if confirm (survivors cfg gi base rel es) then
              ((walkLevel cfg base
                  (fun gi2 rel2 t2 => walkTreeF cfg base confirm fuel gi2 rel2 t2)
                  gi rel es).1,
               survivors cfg gi base rel es ::
                 (walkLevel cfg base
                   (fun gi2 rel2 t2 => walkTreeF cfg base confirm fuel gi2 rel2 t2)
                   gi rel es).2)
            else ([], [survivors cfg gi base rel es])
          else
            walkLevel cfg base
              (fun gi2 rel2 t2 => walkTreeF cfg base confirm fuel gi2 rel2 t2)
              gi rel es
        else
          walkLevel cfg base
            (fun gi2 rel2 t2 => walkTreeF cfg base confirm fuel gi2 rel2 t2)
            gi rel es

mutual

/-- Canonical form of a tree: every directory's entries recursively sorted by
name.  Two filesystem states that present the same files in different
enumeration orders have the same canonical form. -/
def canon : FSTree → FSTree
  | FSTree.file r ls => FSTree.file r ls
  | FSTree.dir es => FSTree.dir (sortEntries (canonEntries es))

/-- Canonicalizes every entry's subtree, keeping names and order. -/
def canonEntries : List (Str × FSTree) → List (Str × FSTree)
  | [] => []
  | e :: rest => (e.1, canon e.2) :: canonEntries rest

end

/-- Well-formedness of a modelled filesystem tree: within every directory the
entry names are distinct, as they are on a real filesystem. -/
inductive NodupNames : FSTree → Prop
  | file : ∀ r ls, NodupNames (FSTree.file r ls)
  | dir : ∀ es, (es.map Prod.fst).Nodup → (∀ e ∈ es, NodupNames e.2) →
      NodupNames (FSTree.dir es)

/-- Model of one iteration of the argument loop of `main` together with
`process_path`: a path argument that fails canonicalization (`none`)
contributes nothing but does not stop the run; a file argument is yielded
when the regex admits it and it is readable; a directory argument is walked
with the default rules plus its own ignore file. -/
def processArg (cfg : Config) (confirm : Nat → Bool) (fuel : Nat) :
    Str × Option FSTree → List (List Str)
  | (_, none) => []
  | (n, some (FSTree.file readable _)) =>
    if readable && rxOk cfg [n] then [[n]] else []
  | (n, some (FSTree.dir es)) =>
    let gi := if cfg.use_gitignore
              then (GitIgnore.with_defaults [n]).merge (loadEntries es [n])
              else GitIgnore.empty
    (walkTreeF cfg [n] confirm fuel gi [] (FSTree.dir es)).1

/-- Model of the argument loop of `main` from `main.rs`: every argument is
processed in turn, each contributing its yielded files. -/
def runArgs (cfg : Config) (confirm : Nat → Bool) (fuel : Nat)
    (args : List (Str × Option FSTree)) : List (List Str) :=
  args.foldr (fun a acc => processArg cfg confirm fuel a ++ acc) []

/-- Model of the final exit decision of `main`: the run fails (exit code 1)
exactly when no files were successfully processed. -/
def runExitsWithError (cfg : Config) (confirm : Nat → Bool) (fuel : Nat)
    (args : List (Str × Option FSTree)) : Bool :=
  decide ((runArgs cfg confirm fuel args).length = 0)

end MainRs

section Helpers

/-- The state computed by a fold that overwrites the running value at every
element satisfying `fires` is decided by the last such element. -/
theorem foldl_overwrite_eq_last {α : Type} (fires : α → Bool) (out : α → Bool) :
    ∀ (l : List α) (b : Bool),
      l.foldl (fun st r => if fires r then out r else st) b =
        (((l.filter fires).getLast?).map out).getD b := by
  intro l
  induction l with
  | nil => intro b; rfl
  | cons a t ih =>
    intro b
    rw [List.foldl_cons, ih]
    by_cases h : fires a
    · rw [List.filter_cons_of_pos h]
      rcases ht : t.filter fires with _ | ⟨x, xs⟩
      · simp [h]
      · rw [List.getLast?_cons_cons, List.getLast?_eq_getLast (x :: xs) (by simp)]
        simp
    · rw [List.filter_cons_of_neg h]
      simp [h]

end Helpers

/-- C1: for both variants, `should_ignore` folds over the patterns in
declaration order, overwriting the running ignored-state with the negation of
the matching rule's negation flag, so the result is decided by the last
applicable matching rule (false when none matches); and on the pattern set
consisting of the lines `*.tmp` and `!important.tmp`, the file `a.tmp` is
ignored while the file `important.tmp` is kept. -/
theorem c1_should_ignore_order_and_scenario :
    (∀ (gi : MainRs.GitIgnore) (rel : List Str) (isDir : Bool) (base : List Str),
        gi.should_ignore rel isDir base =
          ((((gi.patterns.filter (fun r => MainRs.ruleFires r rel isDir base)).getLast?).map
              (fun r => !r.is_negation)).getD false)) ∧
    (∀ (gi : Main2.GitIgnore) (rel : List Str) (isDir : Bool),
        gi.should_ignore rel isDir =
          ((((gi.patterns.filter
                (fun r => r.matches (renderPath rel) isDir)).getLast?).map
              (fun r => !r.is_negation)).getD false)) ∧
    (MainRs.GitIgnore.should_ignore
        { patterns := [MainRs.GitIgnorePattern.new "*.tmp".toList [],
                       MainRs.GitIgnorePattern.new "!important.tmp".toList []]
          effective_base_dir := [] }
        ["a.tmp".toList] false [] = true) ∧
    (MainRs.GitIgnore.should_ignore
        { patterns := [MainRs.GitIgnorePattern.new "*.tmp".toList [],
                       MainRs.GitIgnorePattern.new "!important.tmp".toList []]
          effective_base_dir := [] }
        ["important.tmp".toList] false [] = false) ∧
    (Main2.GitIgnore.should_ignore
        { patterns := [Main2.GitIgnorePattern.new "*.tmp".toList,
                       Main2.GitIgnorePattern.new "!important.tmp".toList] }
        ["a.tmp".toList] false = true) ∧
    (Main2.GitIgnore.should_ignore
        { patterns := [Main2.GitIgnorePattern.new "*.tmp".toList,
                       Main2.GitIgnorePattern.new "!important.tmp".toList] }
        ["important.tmp".toList] false = false) := by
  refine ⟨?_, ?_, by decide, by decide, by decide, by decide⟩
  · intro gi rel isDir base
    exact foldl_overwrite_eq_last _ _ gi.patterns false
  · intro gi rel isDir
    exact foldl_overwrite_eq_last _ _ gi.patterns false

/-- C5 counterexample: in the second variant's matcher the lone pattern `*`
matches the text `a/b` even though that text contains a `/` character, so the
claimed equivalence fails for that matcher. -/
theorem c5_counterexample_star_crosses_slash :
    Main2.simple_glob_match ['*'] ('a' :: '/' :: 'b' :: []) = true ∧
    ('a' :: '/' :: 'b' :: []).contains '/' = true :=
  ⟨by decide, by decide⟩

/-- C5 amended: in the first variant's matcher the lone pattern `*` matches
exactly the texts containing no `/` and the empty pattern matches exactly the
empty text; in the second variant's matcher the lone pattern `*` matches
every text (also across `/`), while the empty pattern matches exactly the
empty text. -/
theorem c5_amended_glob_base_cases :
    (∀ t : Str, MainRs.simple_glob_match ['*'] t = !(t.contains '/')) ∧
    (∀ t : Str, MainRs.simple_glob_match [] t = t.isEmpty) ∧
    (∀ t : Str, Main2.simple_glob_match ['*'] t = true) ∧
    (∀ t : Str, Main2.simple_glob_match [] t = t.isEmpty) := by
  refine ⟨fun t => ?_, fun t => ?_, fun t => ?_, fun t => ?_⟩
  · simp [MainRs.simple_glob_match]
  · simp [MainRs.simple_glob_match]
  · simp [Main2.simple_glob_match]
  · simp [Main2.simple_glob_match]

section GlobNoStar

/-- Splitting at a character that does not occur leaves the list whole. -/
theorem splitOnChar_eq_single {c : Char} :
    ∀ {l : Str}, l.contains c = false → splitOnChar c l = [l] := by
  intro l
  induction l with
  | nil => intro _; rfl
  | cons a t ih =>
    intro h
    simp only [List.contains_cons, Bool.or_eq_false_iff, beq_eq_false_iff_ne] at h
    have h1 : ¬(a = c) := fun hac => h.1 hac.symm
    simp [splitOnChar, ih h.2, h1]

/-- A character list that does not contain `c` does not start with `c`. -/
theorem head?_ne_of_not_contains {c : Char} {l : Str} (h : l.contains c = false) :
    l.head? ≠ some c := by
  intro hh
  cases l with
  | nil => simp at hh
  | cons a t =>
    simp only [List.head?_cons, Option.some.injEq] at hh
    subst hh
    simp [List.contains_cons] at h

/-- A character list that does not contain `c` does not end with `c`. -/
theorem getLast?_ne_of_not_contains {c : Char} {l : Str} (h : l.contains c = false) :
    l.getLast? ≠ some c := by
  intro hh
  have hm : c ∈ l := by
    obtain ⟨hne, heq⟩ := List.mem_getLast?_eq_getLast hh
    rw [heq]
    exact List.getLast_mem hne
  have helem : l.elem c = true := List.elem_eq_true_of_mem hm
  rw [show l.contains c = l.elem c from rfl, helem] at h
  cases h

/-- When the pattern contains no `*`, the first variant's matcher degenerates
to literal equality (any `?` in the pattern is compared as an ordinary
character). -/
theorem mainrs_glob_no_star {p t : Str} (h : p.contains '*' = false) :
    MainRs.simple_glob_match p t = true ↔ p = t := by
  have hp1 : ¬(p = ['*']) := by
    rintro rfl
    exact absurd h (by decide)
  unfold MainRs.simple_glob_match
  rw [if_neg hp1]
  by_cases hp0 : p = []
  · subst hp0
    rw [if_pos rfl]
    constructor
    · intro h1
      exact (List.isEmpty_iff.mp h1).symm
    · intro h1
      rw [← h1]
      rfl
  · rw [if_neg hp0]
    by_cases ht : t = []
    · subst ht
      rw [if_pos rfl]
      constructor
      · intro h1
        rcases of_decide_eq_true h1 with h2 | h2
        · exact absurd h2 hp1
        · exact absurd h2 hp0
      · intro h1
        exact absurd h1 hp0
    · rw [if_neg ht]
      by_cases hq : p.contains '?' = false
      · rw [if_pos ⟨h, hq⟩]
        constructor
        · exact fun h1 => of_decide_eq_true h1
        · exact fun h1 => decide_eq_true h1
      · rw [if_neg (fun hc => hq hc.2)]
        simp only [splitOnChar_eq_single h]
        have hhead : (decide (p.head? = some '*')) = false :=
          decide_eq_false (head?_ne_of_not_contains h)
        have hlast : ¬(p.getLast? = some '*') := getLast?_ne_of_not_contains h
        rw [if_neg (List.cons_ne_nil p [])]
        unfold MainRs.globLoop
        rw [if_neg hp0, if_pos ⟨rfl, hhead⟩]
        by_cases hpre : p.isPrefixOf t = true
        · rw [if_pos hpre]
          unfold MainRs.globLoop
          show (if List.getLast? p = some '*' then true
                else decide (List.length p = List.length t)) = true ↔ p = t
          rw [if_neg hlast]
          constructor
          · intro hlen
            exact List.IsPrefix.eq_of_length ( List.isPrefixOf_iff_prefix.mp hpre)
              (of_decide_eq_true hlen)
          · intro he
            subst he
            exact decide_eq_true rfl
        · rw [if_neg hpre]
          constructor
          · intro hfalse
            cases hfalse
          · intro he
            subst he
            exact absurd ( List.isPrefixOf_iff_prefix.mpr (List.prefix_refl p)) hpre

end GlobNoStar

/-- C4 counterexample: the first variant's matcher does not treat `?` as a
single-character wildcard: the pattern `a?c`, which contains `?`, matches
neither `abc` nor `axc`, though the claim requires both to match. -/
theorem c4_counterexample_question_literal :
    "a?c".toList.contains '?' = true ∧
    MainRs.simple_glob_match "a?c".toList "abc".toList = false ∧
    MainRs.simple_glob_match "a?c".toList "axc".toList = false :=
  ⟨by decide, by decide, by decide⟩

/-- C4 amended: only the second variant's matcher treats `?` as matching
exactly one character of the text (so `a?c` matches `abc` and `axc` but not
`ac` or `abbc`); the first variant's matcher carries `?` along as a literal
character, so without a `*` in the pattern it matches only the identical
text. -/
theorem c4_amended_question_semantics :
    (∀ (ps t : Str), Main2.simple_glob_match ('?' :: ps) t =
        match t with
        | [] => false
        | _ :: ts => Main2.simple_glob_match ps ts) ∧
    (Main2.simple_glob_match "a?c".toList "abc".toList = true) ∧
    (Main2.simple_glob_match "a?c".toList "axc".toList = true) ∧
    (Main2.simple_glob_match "a?c".toList "ac".toList = false) ∧
    (Main2.simple_glob_match "a?c".toList "abbc".toList = false) ∧
    (∀ (p t : Str), p.contains '*' = false →
        (MainRs.simple_glob_match p t = true ↔ p = t)) := by
  refine ⟨fun ps t => ?_, by decide, by decide, by decide, by decide,
    fun p t h => mainrs_glob_no_star h⟩
  cases t <;> simp [Main2.simple_glob_match]

/-- C4 witness: the amended general statement applied to the concrete
star-free pattern `a?c`. -/
theorem c4_amended_question_semantics_witness :
    ("a?c".toList.contains '*' = false) ∧
    (MainRs.simple_glob_match "a?c".toList "a?c".toList = true ↔
      "a?c".toList = "a?c".toList) :=
  ⟨by decide, c4_amended_question_semantics.2.2.2.2.2 "a?c".toList "a?c".toList (by decide)⟩

section Termination

/-- When the matcher passed to the suffix loop always answers, the loop
answers with the disjunction over the suffix list. -/
theorem starLoop_eq_any (f : Str → Bool) (g : Str → Option Bool)
    (hfg : ∀ s, g s = some (f s)) :
    ∀ l : List Str, Main2.starLoop g l = some (l.any f) := by
  intro l
  induction l with
  | nil => rfl
  | cons s rest ih =>
    rw [Main2.starLoop, hfg s]
    cases hf : f s
    · simpa [hf] using ih
    · simp [hf]

end Termination

/-- C10: the clone-based backtracking matcher of the second variant is total:
with any recursion budget exceeding the pattern length, the fuel-indexed
transcription of the source reaches a base case on every input and computes
the same answer as the total matcher (every use of the suffix-retry loop of
the `*` handler drops one pattern character, so the recursion depth is
bounded by the pattern length). -/
theorem c10_backtracking_glob_terminates :
    ∀ (pat : Str) (n : Nat), pat.length < n → ∀ text : Str,
      Main2.globFuel n pat text = some (Main2.simple_glob_match pat text) := by
  intro pat
  induction pat with
  | nil =>
    intro n hn text
    match n, hn with
    | n + 1, _ => rfl
  | cons p ps ih =>
    intro n hn text
    match n, hn with
    | n + 1, hn =>
      have hps : ps.length < n := by
        have : ps.length + 1 < n + 1 := by simpa using hn
        omega
      by_cases hstar : p = '*'
      · subst hstar
        by_cases hempty : ps.isEmpty
        · simp [Main2.globFuel, Main2.simple_glob_match, hempty]
        · simp only [Main2.globFuel, Main2.simple_glob_match, hempty, if_true, if_false,
            Bool.false_eq_true, ite_false, ite_true, reduceIte]
          rw [starLoop_eq_any (fun s => Main2.simple_glob_match ps s)
            (fun s => Main2.globFuel n ps s) (fun s => ih n hps s) text.tails]
      · by_cases hq : p = '?'
        · subst hq
          cases text with
          | nil => simp [Main2.globFuel, Main2.simple_glob_match]
          | cons t ts => simp [Main2.globFuel, Main2.simple_glob_match, ih n hps]
        · cases text with
          | nil => simp [Main2.globFuel, Main2.simple_glob_match, hstar, hq]
          | cons t ts =>
            by_cases hpt : p = t
            · subst hpt
              simp [Main2.globFuel, Main2.simple_glob_match, hstar, hq, ih n hps]
            · simp [Main2.globFuel, Main2.simple_glob_match, hstar, hq, hpt, ih n hps]

/-- C10 witness: the totality statement applied to a concrete pattern, text
and sufficient budget. -/
theorem c10_backtracking_glob_terminates_witness :
    ("a*b*".toList.length < 5) ∧
    Main2.globFuel 5 "a*b*".toList "aXbYb".toList =
      some (Main2.simple_glob_match "a*b*".toList "aXbYb".toList) :=
  ⟨by decide, c10_backtracking_glob_terminates "a*b*".toList 5 (by decide) "aXbYb".toList⟩

section TrimFacts

/-- Dropping a satisfied prefix twice is the same as dropping it once. -/
theorem dropWhile_idem (p : Char → Bool) :
    ∀ l : Str, (l.dropWhile p).dropWhile p = l.dropWhile p := by
  intro l
  induction l with
  | nil => rfl
  | cons a t ih =>
    by_cases h : p a
    · simp [List.dropWhile_cons, h, ih]
    · simp [List.dropWhile_cons, h]

/-- Trimming is idempotent, as Rust's `str::trim` is; `GitIgnorePattern::new`
re-trims the already-trimmed line the loader hands it. -/
theorem trimStr_idem (s : Str) : trimStr (trimStr s) = trimStr s := by
  unfold trimStr
  have key : ∀ u : Str, (∀ x, u.head? = some x → ¬ x.isWhitespace = true) →
      ((((u.reverse.dropWhile Char.isWhitespace).reverse).dropWhile
          Char.isWhitespace).reverse.dropWhile Char.isWhitespace).reverse =
        (u.reverse.dropWhile Char.isWhitespace).reverse := by
    intro u hu
    have h1 : ((u.reverse.dropWhile Char.isWhitespace).reverse).dropWhile
        Char.isWhitespace = (u.reverse.dropWhile Char.isWhitespace).reverse := by
      cases hvr : (u.reverse.dropWhile Char.isWhitespace).reverse with
      | nil => rfl
      | cons x xs =>
        have hs : (u.reverse.dropWhile Char.isWhitespace) <:+ u.reverse :=
          List.dropWhile_suffix Char.isWhitespace
        have hp : (u.reverse.dropWhile Char.isWhitespace).reverse <+: u := by
          have h2 := List.reverse_prefix.mpr hs
          rwa [List.reverse_reverse] at h2
        obtain ⟨rest, hrest⟩ := hp
        have hxu : u.head? = some x := by
          rw [← hrest, hvr]
          rfl
        have hx := hu x hxu
        rw [List.dropWhile_cons, if_neg hx]
    rw [h1, List.reverse_reverse, dropWhile_idem]
  apply key
  intro x hx
  have hh := List.head?_dropWhile_not Char.isWhitespace s
  rw [hx] at hh
  simpa using hh

end TrimFacts

/-- C6 counterexample: the rule line `/` is neither blank nor a comment, so
the loader retains it, yet the resulting pattern has an empty glob,
contradicting the claimed invariant that no retained rule line yields a
pattern with an empty glob. -/
theorem c6_counterexample_slash_line_empty_glob :
    (trimStr "/".toList ≠ [] ∧ (trimStr "/".toList).head? ≠ some '#') ∧
    (MainRs.load_gitignore ["/".toList] []).patterns.map
      (fun p => p.pattern) = [[]] :=
  ⟨⟨by decide, by decide⟩, by decide⟩

/-- C6 amended: blank lines and `#`-comment lines never become patterns (the
originating line of every loaded pattern is non-empty after trimming and does
not begin with `#`); however, a retained rule line may still yield a pattern
with an empty glob (the lines `/` and `!`) or a glob beginning with `#` (the
line `!#x`). -/
theorem c6_amended_loader_patterns :
    (∀ (contents : List Str) (dir : List Str) (p : MainRs.GitIgnorePattern),
        p ∈ (MainRs.load_gitignore contents dir).patterns →
        p.raw_pattern ≠ [] ∧ p.raw_pattern.head? ≠ some '#') ∧
    ((MainRs.load_gitignore ["/".toList] []).patterns.map
        (fun p => p.pattern) = [[]]) ∧
    ((MainRs.load_gitignore ["!".toList] []).patterns.map
        (fun p => (p.pattern, p.is_negation)) = [([], true)]) ∧
    ((MainRs.load_gitignore ["!#x".toList] []).patterns.map
        (fun p => p.pattern) = [('#' :: 'x' :: [])]) := by
  refine ⟨?_, by decide, by decide, by decide⟩
  intro contents dir p hp
  unfold MainRs.load_gitignore at hp
  simp only [List.mem_filterMap] at hp
  obtain ⟨line, _, heq⟩ := hp
  by_cases hcond : trimStr line = [] ∨ (trimStr line).head? = some '#'
  · rw [if_pos hcond] at heq
    cases heq
  · rw [if_neg hcond] at heq
    obtain rfl : MainRs.GitIgnorePattern.new (trimStr line) dir = p :=
      Option.some.inj heq
    have hraw : (MainRs.GitIgnorePattern.new (trimStr line) dir).raw_pattern =
        trimStr line := by
      unfold MainRs.GitIgnorePattern.new
      rw [trimStr_idem, if_neg hcond]
    rw [hraw]
    push_neg at hcond
    exact hcond

/-- C6 witness: the general loader invariant applied to a one-line ignore
file. -/
theorem c6_amended_loader_patterns_witness :
    (MainRs.GitIgnorePattern.new "a".toList [] ∈
        (MainRs.load_gitignore ["a".toList] []).patterns) ∧
    ((MainRs.GitIgnorePattern.new "a".toList []).raw_pattern ≠ [] ∧
      (MainRs.GitIgnorePattern.new "a".toList []).raw_pattern.head? ≠ some '#') :=
  ⟨by decide,
    c6_amended_loader_patterns.1 ["a".toList] [] (MainRs.GitIgnorePattern.new "a".toList [])
      (by decide)⟩

section Components

/-- Splitting always produces at least one piece. -/
theorem splitOnChar_ne_nil (c : Char) : ∀ l : Str, splitOnChar c l ≠ [] := by
  intro l
  cases l with
  | nil => simp [splitOnChar]
  | cons a t =>
    simp only [splitOnChar]
    by_cases h : a = c
    · simp [h]
    · cases hr : splitOnChar c t <;> simp [h]

/-- The value the second variant substitutes for the file name (the last
non-empty component, or the empty string) is always itself one of the path's
components. -/
theorem fileName_getD_mem (s : Str) : ((fileName s).getD []) ∈ splitOnChar '/' s := by
  unfold fileName
  cases hl : ((splitOnChar '/' s).filter (fun c => !c.isEmpty)).getLast? with
  | some f =>
    rw [Option.getD_some]
    obtain ⟨hne, heq⟩ := List.mem_getLast?_eq_getLast hl
    have hf : f ∈ (splitOnChar '/' s).filter (fun c => !c.isEmpty) := by
      rw [heq]
      exact List.getLast_mem hne
    exact List.mem_of_mem_filter hf
  | none =>
    rw [Option.getD_none]
    have hnil : (splitOnChar '/' s).filter (fun c => !c.isEmpty) = [] := by
      cases hf : (splitOnChar '/' s).filter (fun c => !c.isEmpty) with
      | nil => rfl
      | cons a l =>
        rw [hf, List.getLast?_eq_getLast (a :: l) (List.cons_ne_nil a l)] at hl
        cases hl
    cases hsp : splitOnChar '/' s with
    | nil => exact absurd hsp (splitOnChar_ne_nil '/' s)
    | cons a l =>
      have ha : ¬(!a.isEmpty) = true := by
        have := List.filter_eq_nil_iff.mp (hsp ▸ hnil) a (by simp)
        simpa using this
      have : a = [] := by
        rcases a with _ | _
        · rfl
        · simp at ha
      rw [← this]
      simp

end Components

/-- C3 counterexample: both variants deviate from the claimed bare-pattern
contract on the pattern `build`.  In the second variant the bare pattern
matches the file `build/keep.txt` purely through its non-final component
(the glob does not match the final component), which the claim rules out;
in the first variant the directory candidate `build/sub`, one of whose
components matches the glob, is nevertheless not matched, though the claim
requires a match. -/
theorem c3_counterexample_bare_pattern :
    ((Main2.GitIgnorePattern.new "build".toList).is_absolute = false ∧
      (Main2.GitIgnorePattern.new "build".toList).pattern.contains '/' = false ∧
      (Main2.GitIgnorePattern.new "build".toList).matches
        "build/keep.txt".toList false = true ∧
      (match fileName "build/keep.txt".toList with
       | some fn => Main2.simple_glob_match
           (Main2.GitIgnorePattern.new "build".toList).pattern fn
       | none => false) = false) ∧
    ((MainRs.GitIgnorePattern.new "build".toList []).is_absolute = false ∧
      (MainRs.GitIgnorePattern.new "build".toList []).contains_slash = false ∧
      (splitOnChar '/' "build/sub".toList).any
        (fun part => MainRs.simple_glob_match
          (MainRs.GitIgnorePattern.new "build".toList []).pattern part) = true ∧
      (MainRs.GitIgnorePattern.new "build".toList []).matches
        "build/sub".toList true = false) :=
  ⟨⟨by decide, by decide, by decide, by decide⟩,
   ⟨by decide, by decide, by decide, by decide⟩⟩

/-- C3 amended: what the bare-filename case actually does.  In the second
variant a bare pattern (no anchor, no internal slash, directory-only check
passing) matches exactly when the glob matches some path component of the
candidate, whether or not the candidate is a directory and whether or not
that component is final; in the first variant it matches exactly when the
glob matches the candidate's final path component or the entire candidate
path. -/
theorem c3_amended_bare_pattern_semantics :
    (∀ (r : Main2.GitIgnorePattern) (s : Str) (isDir : Bool),
        r.is_absolute = false → r.pattern.contains '/' = false →
        (r.is_directory && !isDir) = false →
        r.matches s isDir =
          (splitOnChar '/' s).any
            (fun part => Main2.simple_glob_match r.pattern part)) ∧
    (∀ (r : MainRs.GitIgnorePattern) (s : Str) (isDir : Bool),
        r.pattern ≠ [] → r.is_absolute = false → r.contains_slash = false →
        (r.is_directory && !isDir) = false →
        r.matches s isDir =
          ((match fileName s with
            | some fn => MainRs.simple_glob_match r.pattern fn
            | none => false) || MainRs.simple_glob_match r.pattern s)) := by
  constructor
  · intro r s isDir h1 h2 h3
    unfold Main2.GitIgnorePattern.matches
    have h2' : ¬(r.pattern.contains '/' = true) := by
      rw [h2]
      simp
    rw [if_neg (by simp [h3]), if_neg (by simp [h1]), if_neg h2']
    by_cases hfn : Main2.simple_glob_match r.pattern ((fileName s).getD []) = true
    · rw [if_pos hfn]
      have hany : (splitOnChar '/' s).any
          (fun part => Main2.simple_glob_match r.pattern part) = true :=
        List.any_eq_true.mpr ⟨(fileName s).getD [], fileName_getD_mem s, hfn⟩
      rw [hany]
    · rw [if_neg hfn]
      by_cases hd : (isDir && (splitOnChar '/' s).any
          (fun part => Main2.simple_glob_match r.pattern part)) = true
      · rw [if_pos hd]
        rw [(Bool.and_eq_true _ _).mp hd |>.2]
      · rw [if_neg hd]
  · intro r s isDir h0 h1 h2 h3
    unfold MainRs.GitIgnorePattern.matches
    rw [if_neg h0, if_neg (by simp [h3]), if_neg (by simp [h1, h2])]

/-- C3 witness: the amended characterizations applied to the bare pattern
`build` against concrete candidates. -/
theorem c3_amended_bare_pattern_semantics_witness :
    ((Main2.GitIgnorePattern.new "build".toList).is_absolute = false ∧
      (Main2.GitIgnorePattern.new "build".toList).pattern.contains '/' = false ∧
      ((Main2.GitIgnorePattern.new "build".toList).is_directory && !true) = false ∧
      (Main2.GitIgnorePattern.new "build".toList).matches "a/build".toList true =
        (splitOnChar '/' "a/build".toList).any
          (fun part => Main2.simple_glob_match
            (Main2.GitIgnorePattern.new "build".toList).pattern part)) ∧
    ((MainRs.GitIgnorePattern.new "build".toList []).matches "a/build".toList true =
      ((match fileName "a/build".toList with
        | some fn => MainRs.simple_glob_match
            (MainRs.GitIgnorePattern.new "build".toList []).pattern fn
        | none => false) ||
        MainRs.simple_glob_match
          (MainRs.GitIgnorePattern.new "build".toList []).pattern
          "a/build".toList)) :=
  ⟨⟨by decide, by decide, by decide,
    c3_amended_bare_pattern_semantics.1 (Main2.GitIgnorePattern.new "build".toList)
      "a/build".toList true (by decide) (by decide) (by decide)⟩,
   c3_amended_bare_pattern_semantics.2 (MainRs.GitIgnorePattern.new "build".toList [])
      "a/build".toList true (by decide) (by decide) (by decide) (by decide)⟩

section WalkEquations

/-- Unfolding equation of the walker at an exhausted budget. -/
theorem walkTreeF_zero (cfg : MainRs.Config) (base : List Str) (confirm : Nat → Bool)
    (gi : MainRs.GitIgnore) (rel : List Str) (t : MainRs.FSTree) :
    MainRs.walkTreeF cfg base confirm 0 gi rel t = ([], []) := rfl

/-- Unfolding equation of the walker at a file node. -/
theorem walkTreeF_succ_file (cfg : MainRs.Config) (base : List Str)
    (confirm : Nat → Bool) (fuel : Nat) (gi : MainRs.GitIgnore) (rel : List Str)
    (r : Bool) (ls : List Str) :
    MainRs.walkTreeF cfg base confirm (fuel + 1) gi rel (MainRs.FSTree.file r ls) =
      ([], []) := rfl

/-- Unfolding equation of the walker at a directory node. -/
theorem walkTreeF_succ_dir (cfg : MainRs.Config) (base : List Str)
    (confirm : Nat → Bool) (fuel : Nat) (gi : MainRs.GitIgnore) (rel : List Str)
    (es : List (Str × MainRs.FSTree)) :
    MainRs.walkTreeF cfg base confirm (fuel + 1) gi rel (MainRs.FSTree.dir es) =
      if (cfg.use_gitignore && gi.should_ignore rel true base) = true then ([], [])
      else
        if MainRs.survivors cfg gi base rel es > 10 ∧ rel = [] then
          if cfg.verbose = true then
            if confirm (MainRs.survivors cfg gi base rel es) = true then
              ((MainRs.walkLevel cfg base
                  (fun gi2 rel2 t2 => MainRs.walkTreeF cfg base confirm fuel gi2 rel2 t2)
                  gi rel es).1,
               MainRs.survivors cfg gi base rel es ::
                 (MainRs.walkLevel cfg base
                   (fun gi2 rel2 t2 => MainRs.walkTreeF cfg base confirm fuel gi2 rel2 t2)
                   gi rel es).2)
            else ([], [MainRs.survivors cfg gi base rel es])
          else
            MainRs.walkLevel cfg base
              (fun gi2 rel2 t2 => MainRs.walkTreeF cfg base confirm fuel gi2 rel2 t2)
              gi rel es
        else
          MainRs.walkLevel cfg base
            (fun gi2 rel2 t2 => MainRs.walkTreeF cfg base confirm fuel gi2 rel2 t2)
            gi rel es := rfl

end WalkEquations

/-- C2: with gitignore mode enabled, a directory whose path relative to the
base directory the inherited pattern set excludes (as a directory) is refused
at the walker's entry check: the walker does not descend into it and yields
nothing from anywhere beneath it, whatever other rules (negations included)
the set contains. -/
theorem c2_ignored_directory_never_entered :
    ∀ (cfg : MainRs.Config) (base : List Str) (confirm : Nat → Bool) (fuel : Nat)
      (gi : MainRs.GitIgnore) (rel : List Str) (es : List (Str × MainRs.FSTree)),
      cfg.use_gitignore = true →
      gi.should_ignore rel true base = true →
      MainRs.walkTreeF cfg base confirm fuel gi rel (MainRs.FSTree.dir es) = ([], []) := by
  intro cfg base confirm fuel gi rel es h1 h2
  cases fuel with
  | zero => rfl
  | succ n =>
    rw [walkTreeF_succ_dir, if_pos (by rw [h1, h2]; rfl)]

/-- C2 witness: a pattern set whose single rule is `build` refuses the
relative directory path `build`, so a walk of that directory yields
nothing. -/
theorem c2_ignored_directory_never_entered_witness :
    ((⟨true, false, true, none⟩ : MainRs.Config).use_gitignore = true) ∧
    ((MainRs.load_gitignore ["build".toList] []).should_ignore
      ["build".toList] true [] = true) ∧
    (MainRs.walkTreeF ⟨true, false, true, none⟩ [] (fun _ => true) 5
      (MainRs.load_gitignore ["build".toList] []) ["build".toList]
      (MainRs.FSTree.dir [("x".toList, MainRs.FSTree.file true [])]) = ([], [])) :=
  ⟨rfl, by decide,
    c2_ignored_directory_never_entered ⟨true, false, true, none⟩ [] (fun _ => true) 5
      (MainRs.load_gitignore ["build".toList] []) ["build".toList]
      [("x".toList, MainRs.FSTree.file true [])] rfl (by decide)⟩

section PromptFacts

/-- The entry loop never records a confirmation of its own, so its prompt
component is whatever the recursive calls produce: nothing, as soon as the
walk passed in produces no prompts on the entries' extended paths. -/
theorem walkLevel_snd_nil (cfg : MainRs.Config) (base : List Str)
    (w : MainRs.GitIgnore → List Str → MainRs.FSTree → List (List Str) × List Nat)
    (cur : MainRs.GitIgnore) (rel : List Str)
    (hw : ∀ (gi2 : MainRs.GitIgnore) (n2 : Str) (t2 : MainRs.FSTree),
        (w gi2 (rel ++ [n2]) t2).2 = []) :
    ∀ l : List (Str × MainRs.FSTree),
      (l.foldr (MainRs.walkStep cfg w cur rel) ([], [])).2 = [] := by
  intro l
  induction l with
  | nil => rfl
  | cons e rest ih =>
    rcases e with ⟨name, tf⟩
    rw [List.foldr_cons]
    cases tf with
    | file r ls =>
      by_cases hc : (r && MainRs.rxOk cfg (rel ++ [name])) = true
      · simp [MainRs.walkStep, hc, ih]
      · simp [MainRs.walkStep, hc, ih]
    | dir es2 =>
      by_cases hc : cfg.recursive = true
      · simp [MainRs.walkStep, hc, ih, hw]
      · simp [MainRs.walkStep, hc, ih]

/-- Below the top level the walker never invokes the confirmation: the prompt
record of any walk at a non-empty relative path is empty. -/
theorem walk_prompts_nil_nontop :
    ∀ (fuel : Nat) (cfg : MainRs.Config) (base : List Str) (confirm : Nat → Bool)
      (gi : MainRs.GitIgnore) (rel : List Str) (t : MainRs.FSTree),
      rel ≠ [] →
      (MainRs.walkTreeF cfg base confirm fuel gi rel t).2 = [] := by
  intro fuel
  induction fuel with
  | zero => intros; rfl
  | succ n ih =>
    intro cfg base confirm gi rel t hrel
    cases t with
    | file r ls => rfl
    | dir es =>
      rw [walkTreeF_succ_dir]
      by_cases hig : (cfg.use_gitignore && gi.should_ignore rel true base) = true
      · rw [if_pos hig]
      · rw [if_neg hig, if_neg (fun hc => hrel hc.2)]
        exact walkLevel_snd_nil cfg base _ _ rel
          (fun gi2 n2 t2 => ih cfg base confirm gi2 (rel ++ [n2]) t2 (by simp)) _

end PromptFacts

/-- C8 counterexample: without verbose mode the confirmation is never
invoked.  A top-level directory of 11 files (survivor count over the
threshold) walked with `verbose` off and a hook that would refuse records no
invocation at all and processes all 11 entries anyway, contradicting the
claim that the decision is always requested before processing. -/
theorem c8_counterexample_prompt_needs_verbose :
    ((MainRs.walkTreeF ⟨false, false, false, none⟩ [] (fun _ => false) 1
        MainRs.GitIgnore.empty []
        (MainRs.FSTree.dir
          [("fa".toList, MainRs.FSTree.file true []),
           ("fb".toList, MainRs.FSTree.file true []),
           ("fc".toList, MainRs.FSTree.file true []),
           ("fd".toList, MainRs.FSTree.file true []),
           ("fe".toList, MainRs.FSTree.file true []),
           ("ff".toList, MainRs.FSTree.file true []),
           ("fg".toList, MainRs.FSTree.file true []),
           ("fh".toList, MainRs.FSTree.file true []),
           ("fi".toList, MainRs.FSTree.file true []),
           ("fj".toList, MainRs.FSTree.file true []),
           ("fk".toList, MainRs.FSTree.file true [])])).2 = []) ∧
    ((MainRs.walkTreeF ⟨false, false, false, none⟩ [] (fun _ => false) 1
        MainRs.GitIgnore.empty []
        (MainRs.FSTree.dir
          [("fa".toList, MainRs.FSTree.file true []),
           ("fb".toList, MainRs.FSTree.file true []),
           ("fc".toList, MainRs.FSTree.file true []),
           ("fd".toList, MainRs.FSTree.file true []),
           ("fe".toList, MainRs.FSTree.file true []),
           ("ff".toList, MainRs.FSTree.file true []),
           ("fg".toList, MainRs.FSTree.file true []),
           ("fh".toList, MainRs.FSTree.file true []),
           ("fi".toList, MainRs.FSTree.file true []),
           ("fj".toList, MainRs.FSTree.file true []),
           ("fk".toList, MainRs.FSTree.file true [])])).1.length = 11) :=
  ⟨by decide, by decide⟩

/-- C8 amended: the confirmation is tied to verbose mode.  Below the top
level the hook is never invoked; at the top level of a walk it is invoked
exactly when the survivor count exceeds 10 and verbose mode is on (once, with
that count); the whole walk records at most one invocation; and when the
hook is invoked and refuses, nothing at all is yielded. -/
theorem c8_amended_confirmation_behaviour :
    (∀ (fuel : Nat) (cfg : MainRs.Config) (base : List Str) (confirm : Nat → Bool)
        (gi : MainRs.GitIgnore) (rel : List Str) (t : MainRs.FSTree),
        rel ≠ [] →
        (MainRs.walkTreeF cfg base confirm fuel gi rel t).2 = []) ∧
    (∀ (fuel : Nat) (cfg : MainRs.Config) (base : List Str) (confirm : Nat → Bool)
        (gi : MainRs.GitIgnore) (es : List (Str × MainRs.FSTree)),
        (MainRs.walkTreeF cfg base confirm (fuel + 1) gi [] (MainRs.FSTree.dir es)).2 =
          if (cfg.use_gitignore && gi.should_ignore [] true base) = true then []
          else if MainRs.survivors cfg gi base [] es > 10 ∧ cfg.verbose = true
          then [MainRs.survivors cfg gi base [] es]
          else []) ∧
    (∀ (fuel : Nat) (cfg : MainRs.Config) (base : List Str) (confirm : Nat → Bool)
        (gi : MainRs.GitIgnore) (t : MainRs.FSTree),
        (MainRs.walkTreeF cfg base confirm fuel gi [] t).2.length ≤ 1) ∧
    (∀ (fuel : Nat) (cfg : MainRs.Config) (base : List Str) (confirm : Nat → Bool)
        (gi : MainRs.GitIgnore) (es : List (Str × MainRs.FSTree)),
        (cfg.use_gitignore && gi.should_ignore [] true base) = false →
        cfg.verbose = true →
        MainRs.survivors cfg gi base [] es > 10 →
        confirm (MainRs.survivors cfg gi base [] es) = false →
        MainRs.walkTreeF cfg base confirm (fuel + 1) gi [] (MainRs.FSTree.dir es) =
          ([], [MainRs.survivors cfg gi base [] es])) := by
  have hlevel : ∀ (fuel : Nat) (cfg : MainRs.Config) (base : List Str)
      (confirm : Nat → Bool) (gi : MainRs.GitIgnore) (rel : List Str)
      (es : List (Str × MainRs.FSTree)),
      (MainRs.walkLevel cfg base
        (fun gi2 rel2 t2 => MainRs.walkTreeF cfg base confirm fuel gi2 rel2 t2)
        gi rel es).2 = [] := by
    intro fuel cfg base confirm gi rel es
    exact walkLevel_snd_nil cfg base _ _ rel
      (fun gi2 n2 t2 => walk_prompts_nil_nontop fuel cfg base confirm gi2
        (rel ++ [n2]) t2 (by simp)) _
  refine ⟨walk_prompts_nil_nontop, ?_, ?_, ?_⟩
  · intro fuel cfg base confirm gi es
    rw [walkTreeF_succ_dir]
    by_cases hig : (cfg.use_gitignore && gi.should_ignore [] true base) = true
    · rw [if_pos hig, if_pos hig]
    · rw [if_neg hig, if_neg hig]
      by_cases hs : MainRs.survivors cfg gi base [] es > 10
      · rw [if_pos (And.intro hs rfl)]
        by_cases hv : cfg.verbose = true
        · rw [if_pos hv, if_pos (And.intro hs hv)]
          by_cases hcf : confirm (MainRs.survivors cfg gi base [] es) = true
          · rw [if_pos hcf]
            simp [hlevel fuel cfg base confirm gi [] es]
          · rw [if_neg hcf]
        · rw [if_neg hv, if_neg (fun hc => hv hc.2)]
          exact hlevel fuel cfg base confirm gi [] es
      · rw [if_neg (fun hc => hs hc.1), if_neg (fun hc => hs hc.1)]
        exact hlevel fuel cfg base confirm gi [] es
  · intro fuel cfg base confirm gi t
    cases fuel with
    | zero => rw [walkTreeF_zero]; simp
    | succ n =>
      cases t with
      | file r ls => rw [walkTreeF_succ_file]; simp
      | dir es =>
        rw [walkTreeF_succ_dir]
        by_cases hig : (cfg.use_gitignore && gi.should_ignore [] true base) = true
        · rw [if_pos hig]
          simp
        · rw [if_neg hig]
          by_cases hs : MainRs.survivors cfg gi base [] es > 10
          · rw [if_pos (And.intro hs rfl)]
            by_cases hv : cfg.verbose = true
            · rw [if_pos hv]
              by_cases hcf : confirm (MainRs.survivors cfg gi base [] es) = true
              · rw [if_pos hcf]
                simp [hlevel n cfg base confirm gi [] es]
              · rw [if_neg hcf]
                simp
            · rw [if_neg hv]
              simp [hlevel n cfg base confirm gi [] es]
          · rw [if_neg (fun hc => hs hc.1)]
            simp [hlevel n cfg base confirm gi [] es]
  · intro fuel cfg base confirm gi es hig hv hs hcf
    rw [walkTreeF_succ_dir, if_neg (by rw [hig]; simp), if_pos ⟨hs, rfl⟩, if_pos hv,
      if_neg (by rw [hcf]; simp)]

/-- C8 witness: the amended behaviour applied concretely: a walk below the
top level records no prompt, and a refused top-level confirmation at 11
verbose-mode survivors yields nothing. -/
theorem c8_amended_confirmation_behaviour_witness :
    ((MainRs.walkTreeF ⟨false, false, true, none⟩ [] (fun _ => true) 3
        MainRs.GitIgnore.empty ["sub".toList]
        (MainRs.FSTree.dir [("x".toList, MainRs.FSTree.file true [])])).2 = []) ∧
    (((⟨false, true, false, none⟩ : MainRs.Config).use_gitignore &&
        MainRs.GitIgnore.empty.should_ignore [] true []) = false) ∧
    ((⟨false, true, false, none⟩ : MainRs.Config).verbose = true) ∧
    (MainRs.survivors ⟨false, true, false, none⟩ MainRs.GitIgnore.empty [] []
        [("fa".toList, MainRs.FSTree.file true []),
         ("fb".toList, MainRs.FSTree.file true []),
         ("fc".toList, MainRs.FSTree.file true []),
         ("fd".toList, MainRs.FSTree.file true []),
         ("fe".toList, MainRs.FSTree.file true []),
         ("ff".toList, MainRs.FSTree.file true []),
         ("fg".toList, MainRs.FSTree.file true []),
         ("fh".toList, MainRs.FSTree.file true []),
         ("fi".toList, MainRs.FSTree.file true []),
         ("fj".toList, MainRs.FSTree.file true []),
         ("fk".toList, MainRs.FSTree.file true [])] > 10) ∧
    (MainRs.walkTreeF ⟨false, true, false, none⟩ [] (fun _ => false) 1
        MainRs.GitIgnore.empty []
        (MainRs.FSTree.dir
          [("fa".toList, MainRs.FSTree.file true []),
           ("fb".toList, MainRs.FSTree.file true []),
           ("fc".toList, MainRs.FSTree.file true []),
           ("fd".toList, MainRs.FSTree.file true []),
           ("fe".toList, MainRs.FSTree.file true []),
           ("ff".toList, MainRs.FSTree.file true []),
           ("fg".toList, MainRs.FSTree.file true []),
           ("fh".toList, MainRs.FSTree.file true []),
           ("fi".toList, MainRs.FSTree.file true []),
           ("fj".toList, MainRs.FSTree.file true []),
           ("fk".toList, MainRs.FSTree.file true [])]) =
      ([], [MainRs.survivors ⟨false, true, false, none⟩ MainRs.GitIgnore.empty [] []
        [("fa".toList, MainRs.FSTree.file true []),
         ("fb".toList, MainRs.FSTree.file true []),
         ("fc".toList, MainRs.FSTree.file true []),
         ("fd".toList, MainRs.FSTree.file true []),
         ("fe".toList, MainRs.FSTree.file true []),
         ("ff".toList, MainRs.FSTree.file true []),
         ("fg".toList, MainRs.FSTree.file true []),
         ("fh".toList, MainRs.FSTree.file true []),
         ("fi".toList, MainRs.FSTree.file true []),
         ("fj".toList, MainRs.FSTree.file true []),
         ("fk".toList, MainRs.FSTree.file true [])]])) :=
  ⟨c8_amended_confirmation_behaviour.1 3 ⟨false, false, true, none⟩ [] (fun _ => true)
      MainRs.GitIgnore.empty ["sub".toList]
      (MainRs.FSTree.dir [("x".toList, MainRs.FSTree.file true [])]) (by simp),
   by decide, rfl, by decide,
   c8_amended_confirmation_behaviour.2.2.2 0 ⟨false, true, false, none⟩ []
      (fun _ => false) MainRs.GitIgnore.empty _ (by decide) rfl (by decide) rfl⟩

/-- C9 counterexample: a run whose first path argument fails resolution does
not abort: the error is absorbed by the per-argument loop, the remaining
argument is still processed and the run exits successfully, contradicting the
claim that such a run aborts before any traversal with no files processed. -/
theorem c9_counterexample_missing_arg_does_not_abort :
    (MainRs.runArgs ⟨false, false, false, none⟩ (fun _ => true) 3
        [("bad".toList, none),
         ("good.txt".toList, some (MainRs.FSTree.file true []))] =
      [["good.txt".toList]]) ∧
    (MainRs.runExitsWithError ⟨false, false, false, none⟩ (fun _ => true) 3
        [("bad".toList, none),
         ("good.txt".toList, some (MainRs.FSTree.file true []))] = false) :=
  ⟨by decide, by decide⟩

/-- C9 amended: an unresolvable explicit path argument is reported and
skipped, not fatal: the argument loop processes every argument independently
(a failed argument contributes no files and does not stop later arguments),
and the run exits with an error only when no argument yielded any file at
all.  Inside a traversal a file whose read fails is skipped while the
surrounding entries are still processed, so per-entry failures never unwind
the walk. -/
theorem c9_amended_argument_errors_not_fatal :
    (∀ (cfg : MainRs.Config) (confirm : Nat → Bool) (fuel : Nat)
        (a : Str × Option MainRs.FSTree) (args : List (Str × Option MainRs.FSTree)),
        MainRs.runArgs cfg confirm fuel (a :: args) =
          MainRs.processArg cfg confirm fuel a ++ MainRs.runArgs cfg confirm fuel args) ∧
    (∀ (cfg : MainRs.Config) (confirm : Nat → Bool) (fuel : Nat) (n : Str),
        MainRs.processArg cfg confirm fuel (n, none) = []) ∧
    (∀ (cfg : MainRs.Config) (confirm : Nat → Bool) (fuel : Nat)
        (args : List (Str × Option MainRs.FSTree)),
        MainRs.runExitsWithError cfg confirm fuel args = true ↔
          MainRs.runArgs cfg confirm fuel args = []) ∧
    (∀ (cfg : MainRs.Config)
        (w : MainRs.GitIgnore → List Str → MainRs.FSTree → List (List Str) × List Nat)
        (cur : MainRs.GitIgnore) (rel : List Str) (n : Str) (ls : List Str)
        (acc : List (List Str) × List Nat),
        MainRs.walkStep cfg w cur rel (n, MainRs.FSTree.file false ls) acc = acc) ∧
    (MainRs.walkTreeF ⟨false, false, false, none⟩ [] (fun _ => true) 2
        MainRs.GitIgnore.empty []
        (MainRs.FSTree.dir
          [("a.txt".toList, MainRs.FSTree.file false []),
           ("b.txt".toList, MainRs.FSTree.file true [])]) =
      ([["b.txt".toList]], [])) := by
  refine ⟨fun cfg confirm fuel a args => rfl, fun cfg confirm fuel n => rfl, ?_,
    fun cfg w cur rel n ls acc => rfl, by decide⟩
  intro cfg confirm fuel args
  unfold MainRs.runExitsWithError
  constructor
  · intro h
    exact List.length_eq_zero.mp (of_decide_eq_true h)
  · intro h
    rw [h]
    rfl

section EntryOrder

/-- Totality of the byte-lexicographic order on names. -/
theorem lexLe_total : ∀ a b : Str, lexLe a b = true ∨ lexLe b a = true := by
  intro a
  induction a with
  | nil => intro b; left; rfl
  | cons x s ih =>
    intro b
    cases b with
    | nil => right; rfl
    | cons y t =>
      by_cases hxy : x = y
      · subst hxy
        rcases ih t with h | h
        · left
          simp [lexLe, h]
        · right
          simp [lexLe, h]
      · rcases lt_or_gt_of_ne hxy with h | h
        · left
          simp [lexLe, hxy, h]
        · right
          have hyx : ¬(y = x) := fun he => hxy (Eq.symm he)
          have h' : y < x := h
          simp [lexLe, hyx, h']

/-- Transitivity of the byte-lexicographic order on names. -/
theorem lexLe_trans : ∀ a b c : Str,
    lexLe a b = true → lexLe b c = true → lexLe a c = true := by
  intro a
  induction a with
  | nil => intros; rfl
  | cons x s ih =>
    intro b c hab hbc
    cases b with
    | nil => simp [lexLe] at hab
    | cons y t =>
      cases c with
      | nil => simp [lexLe] at hbc
      | cons z u =>
        by_cases hxy : x = y
        · subst hxy
          rw [show lexLe (x :: s) (x :: t) = lexLe s t by simp [lexLe]] at hab
          by_cases hyz : x = z
          · subst hyz
            rw [show lexLe (x :: t) (x :: u) = lexLe t u by simp [lexLe]] at hbc
            rw [show lexLe (x :: s) (x :: u) = lexLe s u by simp [lexLe]]
            exact ih t u hab hbc
          · rw [show lexLe (x :: t) (z :: u) = decide (x < z) by simp [lexLe, hyz]] at hbc
            rw [show lexLe (x :: s) (z :: u) = decide (x < z) by simp [lexLe, hyz]]
            exact hbc
        · rw [show lexLe (x :: s) (y :: t) = decide (x < y) by simp [lexLe, hxy]] at hab
          have hxy' : x < y := of_decide_eq_true hab
          by_cases hyz : y = z
          · subst hyz
            rw [show lexLe (x :: s) (y :: u) = decide (x < y) by simp [lexLe, hxy]]
            exact hab
          · rw [show lexLe (y :: t) (z :: u) = decide (y < z) by simp [lexLe, hyz]] at hbc
            have hyz' : y < z := of_decide_eq_true hbc
            have hxz : x < z := lt_trans hxy' hyz'
            rw [show lexLe (x :: s) (z :: u) = decide (x < z) by simp [lexLe, ne_of_lt hxz]]
            exact decide_eq_true hxz

instance : IsTotal (Str × MainRs.FSTree) MainRs.entryLe :=
  ⟨fun a b => lexLe_total a.1 b.1⟩

instance : IsTrans (Str × MainRs.FSTree) MainRs.entryLe :=
  ⟨fun a b c => lexLe_trans a.1 b.1 c.1⟩

/-- The walker's sorting step really sorts: its output is ordered by the
entry ordering. -/
theorem sortEntries_sorted (es : List (Str × MainRs.FSTree)) :
    List.Sorted MainRs.entryLe (MainRs.sortEntries es) :=
  List.sorted_insertionSort MainRs.entryLe es

/-- The walker's sorting step is a permutation of the directory's entries. -/
theorem sortEntries_perm (es : List (Str × MainRs.FSTree)) :
    List.Perm (MainRs.sortEntries es) es :=
  List.perm_insertionSort MainRs.entryLe es

end EntryOrder

section CanonEquations

/-- Unfolding equation of `canon` at a file. -/
theorem canon_file (r : Bool) (ls : List Str) :
    MainRs.canon (MainRs.FSTree.file r ls) = MainRs.FSTree.file r ls := by
  unfold MainRs.canon
  rfl

/-- Unfolding equation of `canon` at a directory. -/
theorem canon_dir (es : List (Str × MainRs.FSTree)) :
    MainRs.canon (MainRs.FSTree.dir es) =
      MainRs.FSTree.dir (MainRs.sortEntries (MainRs.canonEntries es)) := by
  unfold MainRs.canon
  rfl

/-- Entry-wise canonicalization is a map over the entries. -/
theorem canonEntries_eq_map : ∀ es : List (Str × MainRs.FSTree),
    MainRs.canonEntries es = es.map (fun e => (e.1, MainRs.canon e.2)) := by
  intro es
  induction es with
  | nil => unfold MainRs.canonEntries; rfl
  | cons e rest ih =>
    unfold MainRs.canonEntries
    rw [ih]
    rfl

/-- Canonicalization does not change whether a node is a directory. -/
theorem canon_isDir (t : MainRs.FSTree) : (MainRs.canon t).isDir = t.isDir := by
  cases t with
  | file r ls => rw [canon_file]
  | dir es => rw [canon_dir]; rfl

end CanonEquations

section CanonWalk

/-- Unfolding equation of the entry step at a file. -/
theorem walkStep_file (cfg : MainRs.Config)
    (w : MainRs.GitIgnore → List Str → MainRs.FSTree → List (List Str) × List Nat)
    (cur : MainRs.GitIgnore) (rel : List Str) (n : Str) (r : Bool) (ls : List Str)
    (acc : List (List Str) × List Nat) :
    MainRs.walkStep cfg w cur rel (n, MainRs.FSTree.file r ls) acc =
      if (r && MainRs.rxOk cfg (rel ++ [n])) = true
      then ((rel ++ [n]) :: acc.1, acc.2) else acc := rfl

/-- Unfolding equation of the entry step at a directory. -/
theorem walkStep_dir (cfg : MainRs.Config)
    (w : MainRs.GitIgnore → List Str → MainRs.FSTree → List (List Str) × List Nat)
    (cur : MainRs.GitIgnore) (rel : List Str) (n : Str)
    (es2 : List (Str × MainRs.FSTree)) (acc : List (List Str) × List Nat) :
    MainRs.walkStep cfg w cur rel (n, MainRs.FSTree.dir es2) acc =
      if cfg.recursive = true then
        ((w cur (rel ++ [n]) (MainRs.FSTree.dir es2)).1 ++ acc.1,
         (w cur (rel ++ [n]) (MainRs.FSTree.dir es2)).2 ++ acc.2)
      else acc := rfl

/-- The walker's sort commutes with entry-wise canonicalization, which keeps
every name in place. -/
theorem sortEntries_canonEntries_comm (es : List (Str × MainRs.FSTree)) :
    MainRs.sortEntries (MainRs.canonEntries es) =
      MainRs.canonEntries (MainRs.sortEntries es) := by
  rw [canonEntries_eq_map, canonEntries_eq_map]
  unfold MainRs.sortEntries
  exact (List.map_insertionSort MainRs.entryLe MainRs.entryLe
    (fun e => (e.1, MainRs.canon e.2)) es (fun a _ b _ => Iff.rfl)).symm

/-- Entry-wise canonicalization preserves sortedness. -/
theorem sorted_canonEntries_of_sorted {l : List (Str × MainRs.FSTree)}
    (h : List.Sorted MainRs.entryLe l) :
    List.Sorted MainRs.entryLe (MainRs.canonEntries l) := by
  rw [canonEntries_eq_map]
  exact List.Pairwise.map _ (fun a b hab => hab) h

/-- In a directory whose entry names are distinct, the name lookup finds a
given entry with the looked-up name wherever it sits in the list. -/
theorem findGitignore_eq_some_of_mem :
    ∀ (l : List (Str × MainRs.FSTree)) (x : Str × MainRs.FSTree),
      (l.map Prod.fst).Nodup → x ∈ l → x.1 = MainRs.gitignoreName →
      l.find? (fun e => decide (e.1 = MainRs.gitignoreName)) = some x := by
  intro l
  induction l with
  | nil => intro x _ hx _; cases hx
  | cons a t ih =>
    intro x hnd hx hkey
    rw [List.map_cons] at hnd
    have hnd' := List.nodup_cons.mp hnd
    rcases List.mem_cons.mp hx with rfl | hxt
    · rw [List.find?_cons_of_pos]
      exact decide_eq_true hkey
    · have hmem : x.1 ∈ t.map Prod.fst := List.mem_map_of_mem Prod.fst hxt
      have hane : ¬(a.1 = MainRs.gitignoreName) := by
        intro hae
        apply hnd'.1
        rw [hae, ← hkey]
        exact hmem
      rw [List.find?_cons_of_neg]
      · exact ih x hnd'.2 hxt hkey
      · simp [hane]

/-- Looking up the ignore file commutes with canonicalization when the entry
names are distinct. -/
theorem findGitignore_canon (es : List (Str × MainRs.FSTree))
    (h : (es.map Prod.fst).Nodup) :
    MainRs.findGitignore (MainRs.canonEntries (MainRs.sortEntries es)) =
      (MainRs.findGitignore es).map MainRs.canon := by
  unfold MainRs.findGitignore
  cases hf : es.find? (fun e => decide (e.1 = MainRs.gitignoreName)) with
  | none =>
    have hnone : (MainRs.canonEntries (MainRs.sortEntries es)).find?
        (fun e => decide (e.1 = MainRs.gitignoreName)) = none := by
      apply List.find?_eq_none.mpr
      intro x hx
      rw [canonEntries_eq_map] at hx
      obtain ⟨y, hy, rfl⟩ := List.mem_map.mp hx
      have hyes : y ∈ es := ((sortEntries_perm es).mem_iff).mp hy
      exact List.find?_eq_none.mp hf y hyes
    rw [hnone]
    rfl
  | some e0 =>
    have he0 : e0 ∈ es := List.mem_of_find?_eq_some hf
    have hp : e0.1 = MainRs.gitignoreName := by
      have h2 := List.find?_some hf
      simpa using h2
    have hkeys : ((MainRs.canonEntries (MainRs.sortEntries es)).map Prod.fst).Nodup := by
      rw [canonEntries_eq_map, List.map_map]
      have hfst : (Prod.fst ∘ fun e : Str × MainRs.FSTree => (e.1, MainRs.canon e.2)) =
          (Prod.fst : Str × MainRs.FSTree → Str) := rfl
      rw [hfst]
      exact (((sortEntries_perm es).map Prod.fst).nodup_iff).mpr h
    have hmem : (e0.1, MainRs.canon e0.2) ∈
        MainRs.canonEntries (MainRs.sortEntries es) := by
      rw [canonEntries_eq_map]
      exact List.mem_map_of_mem _ (((sortEntries_perm es).mem_iff).mpr he0)
    rw [findGitignore_eq_some_of_mem _ _ hkeys hmem hp]
    rfl

/-- The ignore-file existence test commutes with canonicalization. -/
theorem hasGitignore_canon (es : List (Str × MainRs.FSTree))
    (h : (es.map Prod.fst).Nodup) :
    MainRs.hasGitignore (MainRs.canonEntries (MainRs.sortEntries es)) =
      MainRs.hasGitignore es := by
  unfold MainRs.hasGitignore
  rw [findGitignore_canon es h]
  cases MainRs.findGitignore es <;> rfl

/-- Loading the local ignore file commutes with canonicalization. -/
theorem loadEntries_canon (es : List (Str × MainRs.FSTree)) (d : List Str)
    (h : (es.map Prod.fst).Nodup) :
    MainRs.loadEntries (MainRs.canonEntries (MainRs.sortEntries es)) d =
      MainRs.loadEntries es d := by
  unfold MainRs.loadEntries
  rw [findGitignore_canon es h]
  cases hf : MainRs.findGitignore es with
  | none => rfl
  | some t =>
    cases t with
    | file r ls =>
      rw [Option.map_some', canon_file]
    | dir es2 =>
      rw [Option.map_some', canon_dir]

/-- The merged per-directory set commutes with canonicalization. -/
theorem currentSet_canon (cfg : MainRs.Config) (gi : MainRs.GitIgnore)
    (base rel : List Str) (es : List (Str × MainRs.FSTree))
    (h : (es.map Prod.fst).Nodup) :
    MainRs.currentSet cfg gi base rel (MainRs.canonEntries (MainRs.sortEntries es)) =
      MainRs.currentSet cfg gi base rel es := by
  unfold MainRs.currentSet
  rw [hasGitignore_canon es h, loadEntries_canon es (base ++ rel) h]

/-- The survive-or-skip decision sees through canonicalization: it depends
only on the entry's name and directory-ness. -/
theorem keepEntry_canon (cfg : MainRs.Config) (gi : MainRs.GitIgnore)
    (base rel : List Str) (e : Str × MainRs.FSTree) :
    MainRs.keepEntry cfg gi base rel (e.1, MainRs.canon e.2) =
      MainRs.keepEntry cfg gi base rel e := by
  unfold MainRs.keepEntry
  simp [canon_isDir]

/-- The surviving entries of a canonicalized directory are the canonicalized
surviving entries, in the same order. -/
theorem filteredEntries_canon (cfg : MainRs.Config) (gi : MainRs.GitIgnore)
    (base rel : List Str) (es : List (Str × MainRs.FSTree))
    (h : (es.map Prod.fst).Nodup) :
    MainRs.filteredEntries cfg gi base rel
        (MainRs.canonEntries (MainRs.sortEntries es)) =
      (MainRs.filteredEntries cfg gi base rel es).map
        (fun e => (e.1, MainRs.canon e.2)) := by
  unfold MainRs.filteredEntries
  rw [currentSet_canon cfg gi base rel es h]
  have hsorted : List.Sorted MainRs.entryLe
      (MainRs.canonEntries (MainRs.sortEntries es)) :=
    sorted_canonEntries_of_sorted (sortEntries_sorted es)
  rw [show MainRs.sortEntries (MainRs.canonEntries (MainRs.sortEntries es)) =
      MainRs.canonEntries (MainRs.sortEntries es) from hsorted.insertionSort_eq]
  rw [canonEntries_eq_map, List.filter_map]
  congr 1
  apply List.filter_congr
  intro x _
  exact keepEntry_canon cfg _ base rel x

/-- The survivor count is unchanged by canonicalization. -/
theorem survivors_canon (cfg : MainRs.Config) (gi : MainRs.GitIgnore)
    (base rel : List Str) (es : List (Str × MainRs.FSTree))
    (h : (es.map Prod.fst).Nodup) :
    MainRs.survivors cfg gi base rel (MainRs.canonEntries (MainRs.sortEntries es)) =
      MainRs.survivors cfg gi base rel es := by
  unfold MainRs.survivors
  rw [filteredEntries_canon cfg gi base rel es h, List.length_map]

/-- Folding the entry step over canonicalized entries gives the same result
as folding over the originals, as soon as the walk cannot distinguish a
canonicalized subtree. -/
theorem foldr_walkStep_map_canon (cfg : MainRs.Config)
    (w : MainRs.GitIgnore → List Str → MainRs.FSTree → List (List Str) × List Nat)
    (cur : MainRs.GitIgnore) (rel : List Str) :
    ∀ F : List (Str × MainRs.FSTree),
      (∀ e ∈ F, ∀ (g : MainRs.GitIgnore) (r2 : List Str),
          w g r2 (MainRs.canon e.2) = w g r2 e.2) →
      (F.map (fun e => (e.1, MainRs.canon e.2))).foldr
          (MainRs.walkStep cfg w cur rel) ([], []) =
        F.foldr (MainRs.walkStep cfg w cur rel) ([], []) := by
  intro F
  induction F with
  | nil => intro _; rfl
  | cons e F' ih =>
    intro hw
    rw [List.map_cons, List.foldr_cons, List.foldr_cons,
      ih (fun x hx => hw x (List.mem_cons_of_mem e hx))]
    rcases e with ⟨n, tf⟩
    cases tf with
    | file r ls => rw [canon_file]
    | dir es2 =>
      have hw' := hw (n, MainRs.FSTree.dir es2) (List.mem_cons_self _ _) cur (rel ++ [n])
      rw [canon_dir] at hw' ⊢
      rw [walkStep_dir, walkStep_dir, hw']

/-- Walking a canonicalized tree gives exactly the walk of the original
tree, for trees with distinct entry names. -/
theorem walk_canon : ∀ (fuel : Nat) (cfg : MainRs.Config) (base : List Str)
    (confirm : Nat → Bool) (t : MainRs.FSTree), MainRs.NodupNames t →
    ∀ (gi : MainRs.GitIgnore) (rel : List Str),
      MainRs.walkTreeF cfg base confirm fuel gi rel (MainRs.canon t) =
        MainRs.walkTreeF cfg base confirm fuel gi rel t := by
  intro fuel
  induction fuel with
  | zero => intros; rfl
  | succ n ih =>
    intro cfg base confirm t hnd gi rel
    cases t with
    | file r ls => rw [canon_file]
    | dir es =>
      rw [canon_dir, sortEntries_canonEntries_comm]
      cases hnd with
      | dir _ hkeys hsub =>
        rw [walkTreeF_succ_dir, walkTreeF_succ_dir,
          survivors_canon cfg gi base rel es hkeys]
        have hwl : MainRs.walkLevel cfg base
            (fun gi2 rel2 t2 => MainRs.walkTreeF cfg base confirm n gi2 rel2 t2)
            gi rel (MainRs.canonEntries (MainRs.sortEntries es)) =
          MainRs.walkLevel cfg base
            (fun gi2 rel2 t2 => MainRs.walkTreeF cfg base confirm n gi2 rel2 t2)
            gi rel es := by
          unfold MainRs.walkLevel
          rw [currentSet_canon cfg gi base rel es hkeys,
            filteredEntries_canon cfg gi base rel es hkeys]
          exact foldr_walkStep_map_canon cfg _ _ rel
            (MainRs.filteredEntries cfg gi base rel es)
            (fun e he g r2 => ih cfg base confirm e.2
              (hsub e (((sortEntries_perm es).mem_iff).mp (List.mem_of_mem_filter he)))
              g r2)
        rw [hwl]

end CanonWalk

/-- C7: determinism and ordering of the walk.  The walker's sorting step
orders every directory's entries by the byte-lexicographic entry order, and
the walk is a pure function of the tree's canonical form: two filesystem
states with distinct entry names that present the same files and directories
(in whatever enumeration order, at every level) produce the identical ordered
sequence of yielded paths, so two runs over the same unchanged tree with
identical flags coincide. -/
theorem c7_walk_deterministic_and_sorted :
    (∀ es : List (Str × MainRs.FSTree),
        List.Sorted MainRs.entryLe (MainRs.sortEntries es)) ∧
    (∀ (cfg : MainRs.Config) (base : List Str) (confirm : Nat → Bool) (fuel : Nat)
        (gi : MainRs.GitIgnore) (rel : List Str) (t1 t2 : MainRs.FSTree),
        MainRs.NodupNames t1 → MainRs.NodupNames t2 →
        MainRs.canon t1 = MainRs.canon t2 →
        MainRs.walkTreeF cfg base confirm fuel gi rel t1 =
          MainRs.walkTreeF cfg base confirm fuel gi rel t2) := by
  refine ⟨sortEntries_sorted, ?_⟩
  intro cfg base confirm fuel gi rel t1 t2 h1 h2 hc
  calc MainRs.walkTreeF cfg base confirm fuel gi rel t1
      = MainRs.walkTreeF cfg base confirm fuel gi rel (MainRs.canon t1) :=
        (walk_canon fuel cfg base confirm t1 h1 gi rel).symm
    _ = MainRs.walkTreeF cfg base confirm fuel gi rel (MainRs.canon t2) := by
        rw [hc]
    _ = MainRs.walkTreeF cfg base confirm fuel gi rel t2 :=
        walk_canon fuel cfg base confirm t2 h2 gi rel

/-- C7 witness: the same two files enumerated in the two possible orders have
equal canonical forms, and the walks coincide. -/
theorem c7_walk_deterministic_and_sorted_witness :
    MainRs.NodupNames (MainRs.FSTree.dir
      [("b".toList, MainRs.FSTree.file true []),
       ("a".toList, MainRs.FSTree.file true [])]) ∧
    MainRs.NodupNames (MainRs.FSTree.dir
      [("a".toList, MainRs.FSTree.file true []),
       ("b".toList, MainRs.FSTree.file true [])]) ∧
    MainRs.canon (MainRs.FSTree.dir
      [("b".toList, MainRs.FSTree.file true []),
       ("a".toList, MainRs.FSTree.file true [])]) =
      MainRs.canon (MainRs.FSTree.dir
        [("a".toList, MainRs.FSTree.file true []),
         ("b".toList, MainRs.FSTree.file true [])]) ∧
    MainRs.walkTreeF ⟨false, false, true, none⟩ [] (fun _ => true) 3
        MainRs.GitIgnore.empty []
        (MainRs.FSTree.dir
          [("b".toList, MainRs.FSTree.file true []),
           ("a".toList, MainRs.FSTree.file true [])]) =
      MainRs.walkTreeF ⟨false, false, true, none⟩ [] (fun _ => true) 3
        MainRs.GitIgnore.empty []
        (MainRs.FSTree.dir
          [("a".toList, MainRs.FSTree.file true []),
           ("b".toList, MainRs.FSTree.file true [])]) := by
  have hn1 : MainRs.NodupNames (MainRs.FSTree.dir
      [("b".toList, MainRs.FSTree.file true []),
       ("a".toList, MainRs.FSTree.file true [])]) := by
    refine MainRs.NodupNames.dir _ (by decide) ?_
    intro e he
    rcases List.mem_cons.mp he with rfl | he2
    · exact MainRs.NodupNames.file _ _
    · rcases List.mem_cons.mp he2 with rfl | he3
      · exact MainRs.NodupNames.file _ _
      · cases he3
  have hn2 : MainRs.NodupNames (MainRs.FSTree.dir
      [("a".toList, MainRs.FSTree.file true []),
       ("b".toList, MainRs.FSTree.file true [])]) := by
    refine MainRs.NodupNames.dir _ (by decide) ?_
    intro e he
    rcases List.mem_cons.mp he with rfl | he2
    · exact MainRs.NodupNames.file _ _
    · rcases List.mem_cons.mp he2 with rfl | he3
      · exact MainRs.NodupNames.file _ _
      · cases he3
  have hc : MainRs.canon (MainRs.FSTree.dir
      [("b".toList, MainRs.FSTree.file true []),
       ("a".toList, MainRs.FSTree.file true [])]) =
      MainRs.canon (MainRs.FSTree.dir
        [("a".toList, MainRs.FSTree.file true []),
         ("b".toList, MainRs.FSTree.file true [])]) := by
    rw [canon_dir, canon_dir, canonEntries_eq_map, canonEntries_eq_map]
    rfl
  exact ⟨hn1, hn2, hc,
    c7_walk_deterministic_and_sorted.2 ⟨false, false, true, none⟩ [] (fun _ => true) 3
      MainRs.GitIgnore.empty [] _ _ hn1 hn2 hc⟩

